import Mathlib

/-!
Verification of hakusai_rpc: registry, codec, server loop and method registration.

A shallow embedding of the Go sources and the properties proved about them.
-/

namespace Registry

/-- Instants (`time.Time`) and durations (`time.Duration`), both counted in nanoseconds. -/
abbrev Time := Int

/-- Entry of the registry: `ServerItem{Addr, start}`. -/
structure ServerItem where
  Addr : String
  start : Time
deriving DecidableEq, Repr

/-- The Go map `map[string]*ServerItem`, as an association list. A Go map holds each key at
most once (`NodupKeys`); the order of the list stands for the unspecified iteration order. -/
abbrev ServerMap := List (String × ServerItem)

/-- A Go map never holds a key twice. -/
def NodupKeys (m : ServerMap) : Prop := (m.map Prod.fst).Nodup

instance (m : ServerMap) : Decidable (NodupKeys m) := by
  unfold NodupKeys; infer_instance

/-- Indexing `r.servers[addr]`: `none` is the nil pointer of a missing key. -/
def mapGet (m : ServerMap) (addr : String) : Option ServerItem :=
  match m with
  | [] => none
  | (k, s) :: rest => if k = addr then some s else mapGet rest addr

/-- Assignment `r.servers[addr] = s` for a key that may be present. -/
def mapSet (m : ServerMap) (addr : String) (s : ServerItem) : ServerMap :=
  match m with
  | [] => [(addr, s)]
  | (k, v) :: rest => if k = addr then (k, s) :: rest else (k, v) :: mapSet rest addr s

/-- Builtin `delete(r.servers, addr)`. -/
def mapDelete (m : ServerMap) (addr : String) : ServerMap :=
  m.filter (fun kv => kv.1 ≠ addr)

/-- The registry `GeeRegistry{timeout, servers}` (the mutex is not modelled: every method
below runs under it from start to end). -/
structure GeeRegistry where
  timeout : Int
  servers : ServerMap

/-- Go `New(timeout)`. -/
def New (timeout : Int) : GeeRegistry :=
  { timeout := timeout, servers := [] }

/-- Go `putServer(addr)`, with `now` the value of `time.Now()`. -/
def putServer (r : GeeRegistry) (now : Time) (addr : String) : GeeRegistry :=
  match mapGet r.servers addr with
  | none => { r with servers := mapSet r.servers addr { Addr := addr, start := now } }
  | some s => { r with servers := mapSet r.servers addr { s with start := now } }

/-- The test of `aliveServers`: `r.timeout == 0 || s.start.Add(r.timeout).After(time.Now())`. -/
def isAlive (timeout : Int) (now : Time) (s : ServerItem) : Bool :=
  timeout == 0 || decide (s.start + timeout > now)

/-- The `range` loop of `aliveServers` over the entries `todo`: an alive address is appended
to `alive`, an expired one is deleted from the map. -/
def aliveLoop (timeout : Int) (now : Time) (todo : ServerMap)
    (alive : List String) (servers : ServerMap) : List String × ServerMap :=
  match todo with
  | [] => (alive, servers)
  | (addr, s) :: rest =>
    if isAlive timeout now s then
      aliveLoop timeout now rest (alive ++ [addr]) servers
    else
      aliveLoop timeout now rest alive (mapDelete servers addr)

/-- Function `sort.Strings`: ascending order of Go strings (bytewise, which on UTF-8 text is the
order of `String`). -/
def sortStrings (l : List String) : List String :=
  l.insertionSort (· ≤ ·)

/-- Go `aliveServers()`: the sorted alive addresses and the registry after the evictions. -/
def aliveServers (r : GeeRegistry) (now : Time) : List String × GeeRegistry :=
  let res := aliveLoop r.timeout now r.servers [] r.servers
  (sortStrings res.1, { r with servers := res.2 })

/-- Go `strings.Join(elems, ",")`. -/
def joinComma (elems : List String) : String :=
  String.intercalate "," elems

/-- What `ServeHTTP` reads of the request: the method and
`req.Header.Get("X-HakusaiRpc-Server")`, which is empty when the header is absent. -/
structure Request where
  Method : String
  server : String
deriving DecidableEq, Repr

/-- The `http.ResponseWriter`: the header map and the status given to `WriteHeader`, if any. -/
structure ResponseWriter where
  header : List (String × String)
  status : Option Nat
deriving DecidableEq, Repr

/-- A response writer nothing has been written to. -/
def ResponseWriter.fresh : ResponseWriter :=
  { header := [], status := none }

/-- Go `w.Header().Set(key, value)`. -/
def ResponseWriter.Set (w : ResponseWriter) (key value : String) : ResponseWriter :=
  { w with header := (key, value) :: w.header.filter (fun kv => kv.1 ≠ key) }

/-- Go `w.Header().Get(key)`. -/
def ResponseWriter.Get (w : ResponseWriter) (key : String) : String :=
  match w.header.find? (fun kv => kv.1 = key) with
  | some kv => kv.2
  | none => ""

/-- Go `w.WriteHeader(code)`: the first call fixes the status. -/
def ResponseWriter.WriteHeader (w : ResponseWriter) (code : Nat) : ResponseWriter :=
  match w.status with
  | none => { w with status := some code }
  | some _ => w

/-- Status sent to the client: net/http answers 200 when the handler never calls
`WriteHeader`. -/
def ResponseWriter.statusCode (w : ResponseWriter) : Nat :=
  w.status.getD 200

/-- Go `ServeHTTP(w, req)`, with `now` the value of `time.Now()` during the call. -/
def ServeHTTP (r : GeeRegistry) (now : Time) (w : ResponseWriter) (req : Request) :
    GeeRegistry × ResponseWriter :=
  if req.Method = "GET" then
    let res := aliveServers r now
    (res.2, w.Set "X-HakusaiRpc-Servers" (joinComma res.1))
  else if req.Method = "POST" then
    let addr := req.server
    if addr = "" then
      (r, w.WriteHeader 500)
    else
      (putServer r now addr, w)
  else
    (r, w.WriteHeader 405)

/-- A sequence of requests, each with its own clock reading and a fresh response writer;
the registry is threaded through. -/
def serveAll (r : GeeRegistry) (reqs : List (Time × Request)) : GeeRegistry :=
  reqs.foldl (fun r q => (ServeHTTP r q.1 ResponseWriter.fresh q.2).1) r

/-- Shape of the table while only the address `a` is ever posted. -/
def OnlyAddr (a : String) (t : Int) (r : GeeRegistry) : Prop :=
  r.timeout = t ∧ (r.servers = [] ∨ ∃ τ, r.servers = [(a, ⟨a, τ⟩)])

end Registry

namespace Handshake

/-- The handshake value `Option{MagicNumber, CodecType}` of the server package. -/
structure Option where
  MagicNumber : Int
  CodecType : String
deriving DecidableEq, Repr

end Handshake

namespace Server

/-- Frame header `codec.Header`; `Seq` is a `uint64`, only ever copied and printed. -/
structure Header where
  ServiceMethod : String
  Seq : Nat
  Error : String
deriving DecidableEq, Repr

/-- Zero value of `Header` (`var h codec.Header`). -/
def Header.zero : Header :=
  { ServiceMethod := "", Seq := 0, Error := "" }

/-- The bodies the server hands to `Write`: a string reply, or the placeholder
`invalidRequest = struct{}{}`. -/
inductive Body where
  | str (s : String)
  | invalidRequest
deriving DecidableEq, Repr

/-- Outcome of one decoding call on the connection. -/
inductive Decoded (α : Type) where
  | ok (v : α)
  | fail (err : String)
deriving DecidableEq, Repr

/-- Go `const MagicNumber = 0x3bef5c`. -/
def MagicNumber : Int := 0x3bef5c

/-- Go `codec.GobType`. -/
def GobType : String := "application/gob"

/-- Go `codec.JsonType` (declared, not implemented). -/
def JsonType : String := "application/json"

/-- Go `DefaultOption`. -/
def DefaultOption : Handshake.Option :=
  { MagicNumber := MagicNumber, CodecType := GobType }

/-- The connection (`io.ReadWriteCloser`) as the server meets it: what the JSON decoder makes of
the handshake, what the successive `ReadHeader` and `ReadBody` calls of a codec will decode from
the bytes that follow (an exhausted script is end of file), the frames written back, and whether
it has been closed. -/
structure Conn where
  handshake : Decoded Handshake.Option
  headers : List (Decoded Header)
  bodies : List (Decoded String)
  written : List (Header × Body)
  closed : Bool
deriving DecidableEq, Repr

/-- Go `conn.Close()`. -/
def Conn.Close (c : Conn) : Conn :=
  { c with closed := true }

/-- A value of the interface `codec.Codec`, bound to its connection. -/
structure Codec where
  conn : Conn
deriving DecidableEq, Repr

/-- Go `cc.ReadHeader(&h)`: the error, the header left in `h`, and the codec afterwards. -/
def Codec.ReadHeader (c : Codec) : Option String × Header × Codec :=
  match c.conn.headers with
  | [] => (some "EOF", Header.zero, c)
  | .ok h :: rest => (none, h, { conn := { c.conn with headers := rest } })
  | .fail e :: rest => (some e, Header.zero, { conn := { c.conn with headers := rest } })

/-- Go `cc.ReadBody(&argv)` for a string `argv`: the error, the string left in `argv` (the zero
string when decoding failed), and the codec afterwards. -/
def Codec.ReadBody (c : Codec) : Option String × String × Codec :=
  match c.conn.bodies with
  | [] => (some "EOF", "", c)
  | .ok v :: rest => (none, v, { conn := { c.conn with bodies := rest } })
  | .fail e :: rest => (some e, "", { conn := { c.conn with bodies := rest } })

/-- Go `cc.Write(h, body)`: one frame put on the connection. The write is taken to succeed;
the server only logs a write error. -/
def Codec.Write (c : Codec) (h : Header) (body : Body) : Option String × Codec :=
  (none, { conn := { c.conn with written := c.conn.written ++ [(h, body)] } })

/-- Go `cc.Close()`. -/
def Codec.Close (c : Codec) : Codec :=
  { conn := c.conn.Close }

/-- Go `codec.NewGobCodec(conn)`. -/
def NewGobCodec (conn : Conn) : Codec :=
  { conn := conn }

/-- Go `codec.NewCodecFuncMap[t]` after `init()`: only `GobType` has a constructor; `none` is the
nil function of a missing key. -/
def NewCodecFuncMap (t : String) : Option (Conn → Codec) :=
  if t = GobType then some NewGobCodec else none

/-- Go `request{h, argv, replyv}`; `replyv` is unset until the handler fills it. -/
structure request where
  h : Header
  argv : String
  replyv : Option String
deriving DecidableEq, Repr

/-- Go `readRequestHeader(cc)`: the pair `(*Header, error)` and the codec afterwards. -/
def readRequestHeader (cc : Codec) : (Option Header × Option String) × Codec :=
  match cc.ReadHeader with
  | (some err, _, cc1) => ((none, some err), cc1)
  | (none, h, cc1) => ((some h, none), cc1)

/-- Go `readRequest(cc)`: the pair `(*request, error)` and the codec afterwards. A body that
fails to decode is logged and the request is returned with a nil error. -/
def readRequest (cc : Codec) : (Option request × Option String) × Codec :=
  match readRequestHeader cc with
  | ((_, some err), cc1) => ((none, some err), cc1)
  | ((none, none), cc1) => ((none, none), cc1)
  | ((some h, none), cc1) =>
    match cc1.ReadBody with
    | (_, argv, cc2) => ((some { h := h, argv := argv, replyv := none }, none), cc2)

/-- Go `sendResponse(cc, h, body, sending)`: runs under the mutex `sending`, so it is one atomic
step; a write error is only logged. -/
def sendResponse (cc : Codec) (h : Header) (body : Body) : Codec :=
  (cc.Write h body).2

/-- Go `fmt.Sprintf("geerpc resp %d", seq)`. -/
def replyText (seq : Nat) : String :=
  "geerpc resp " ++ toString seq

/-- Go `handleRequest(cc, req, sending, wg)`: the body of one handler goroutine. -/
def handleRequest (cc : Codec) (req : request) : Codec :=
  let req1 := { req with replyv := some (replyText req.h.Seq) }
  sendResponse cc req1.h (Body.str (replyText req1.h.Seq))

/-- Where the goroutine running `serveCodec` stands: in the `for` loop, in `wg.Wait()`, past
`cc.Close()`, or crashed on a nil request. -/
inductive Phase where
  | reading
  | waiting
  | closed
  | panicked
deriving DecidableEq, Repr

/-- State of one `serveCodec` call: the codec, the handler goroutines started and not yet
finished (the count of the wait group), and the phase of the loop. -/
structure ServerState where
  cc : Codec
  running : List request
  phase : Phase
deriving DecidableEq, Repr

/-- The scheduler's choice: the serving goroutine moves, or the handler at a position of
`running` does. -/
inductive Action where
  | main
  | handler (i : Nat)
deriving DecidableEq, Repr

/-- One step of the serving goroutine: an iteration of the `for` loop, or `wg.Wait()` followed
by `cc.Close()`, which goes through only once no handler is running. -/
def mainStep (s : ServerState) : ServerState :=
  match s.phase with
  | .reading =>
    match readRequest s.cc with
    | ((none, some _), cc1) => { s with cc := cc1, phase := .waiting }
    | ((some req, some err), cc1) =>
      { s with cc := sendResponse cc1 { req.h with Error := err } Body.invalidRequest }
    | ((some req, none), cc1) => { s with cc := cc1, running := s.running ++ [req] }
    | ((none, none), cc1) => { s with cc := cc1, phase := .panicked }
  | .waiting =>
    match s.running with
    | [] => { s with cc := s.cc.Close, phase := .closed }
    | _ :: _ => s
  | .closed => s
  | .panicked => s

/-- One handler goroutine runs `handleRequest` to its end and leaves the wait group. -/
def handlerStep (i : Nat) (s : ServerState) : ServerState :=
  match s.running.get? i with
  | none => s
  | some req => { s with cc := handleRequest s.cc req, running := s.running.eraseIdx i }

/-- One scheduled step; a choice that cannot move leaves the state as it is. -/
def step (s : ServerState) (a : Action) : ServerState :=
  match a with
  | .main => mainStep s
  | .handler i => handlerStep i s

/-- The steps of a schedule, in order. -/
def run (sched : List Action) (s : ServerState) : ServerState :=
  sched.foldl step s

/-- Entry of `serveCodec(cc)`. -/
def start (cc : Codec) : ServerState :=
  { cc := cc, running := [], phase := .reading }

/-- Lets every goroutine run to its end: the loop until it leaves the reading phase, then the
handlers still running, then the close. -/
def finish (s : ServerState) : ServerState :=
  let s1 := run (List.replicate (s.cc.conn.headers.length + 1) Action.main) s
  let s2 := run (List.replicate s1.running.length (Action.handler 0)) s1
  mainStep s2

/-- Go `serveCodec(cc)` under a schedule: the goroutines interleave as `sched` says, and whatever
is left when the schedule ends runs to completion. Every interleaving is one such schedule. -/
def serveCodec (sched : List Action) (cc : Codec) : Codec :=
  (finish (run sched (start cc))).cc

/-- Go `ServeConn(conn)`: the handshake, then the serving loop; the deferred `conn.Close()` runs on
every path. -/
def ServeConn (sched : List Action) (conn : Conn) : Conn :=
  match conn.handshake with
  | .fail _ => conn.Close
  | .ok opt =>
    if opt.MagicNumber ≠ MagicNumber then
      conn.Close
    else
      match NewCodecFuncMap opt.CodecType with
      | none => conn.Close
      | some f => (serveCodec sched (f conn)).conn.Close

/-- The frame `handleRequest` writes for a request with header `h`. -/
def respOf (h : Header) : Header × Body :=
  (h, Body.str (replyText h.Seq))

/-- A header script that does not start with a decodable header: the read that meets it
fails (an empty script is end of file). -/
def StartsBroken (tail : List (Decoded Header)) : Prop :=
  ∀ h t, tail ≠ .ok h :: t

instance (tail : List (Decoded Header)) : Decidable (StartsBroken tail) :=
  match tail with
  | [] => isTrue (fun _ _ hc => by cases hc)
  | .fail _ :: _ => isTrue (fun _ _ hc => by cases hc)
  | .ok h :: t => isFalse (fun hc => hc h t rfl)

/-- Invariant of the serving loop on a connection whose header script is the decodable headers
`hs` followed by `tail`: the frames written so far, together with those the running handlers
still owe, are the replies to the requests read so far, and the phase tells how far the script
has been consumed and whether the codec is closed. -/
def Inv (hs : List Header) (tail : List (Decoded Header)) (s : ServerState) : Prop :=
  ∃ done todo, hs = done ++ todo ∧
    (s.cc.conn.written ++ s.running.map (fun r => respOf r.h)).Perm (done.map respOf) ∧
    (s.phase = .reading →
      s.cc.conn.headers = todo.map Decoded.ok ++ tail ∧ s.cc.conn.closed = false) ∧
    (s.phase = .waiting →
      todo = [] ∧ s.cc.conn.headers = tail.tail ∧ s.cc.conn.closed = false) ∧
    (s.phase = .closed →
      todo = [] ∧ s.cc.conn.headers = tail.tail ∧ s.running = [] ∧
        s.cc.conn.closed = true) ∧
    s.phase ≠ .panicked

/-- The connection of the demonstration client: the default handshake, two `Foo.Sum` requests,
the first with a body that does not decode, then a header read that fails. -/
def demoConn : Conn :=
  { handshake := .ok DefaultOption,
    headers := [.ok ⟨"Foo.Sum", 7, ""⟩, .ok ⟨"Foo.Sum", 8, ""⟩, .fail "unexpected EOF",
      .ok ⟨"Foo.Sum", 9, ""⟩],
    bodies := [.fail "gob: type mismatch", .ok "geerpc req 8"],
    written := [],
    closed := false }

/-- A connection carrying one request for a method nobody registered. -/
def missingConn : Conn :=
  { handshake := .ok DefaultOption,
    headers := [.ok ⟨"Arith.Missing", 1, ""⟩],
    bodies := [.ok "x"],
    written := [],
    closed := false }

end Server

namespace Gob

/-- Bytes on the wire, each below 256. -/
abbrev Bytes := List Nat

/-- The raw connection under a gob codec: the bytes written to it so far, whether it has been
closed, and whether it refuses writes (a broken peer). A write is accepted whole or not at
all. -/
structure Conn where
  wire : Bytes
  closed : Bool
  broken : Bool
deriving DecidableEq, Repr

/-- Go `conn.Write(p)`: the error, and the connection afterwards. -/
def Conn.Write (c : Conn) (p : Bytes) : Option String × Conn :=
  if c.closed || c.broken then
    (some "write: broken connection", c)
  else
    (none, { c with wire := c.wire ++ p })

/-- The `bufio.Writer` of the codec: the bytes it holds back and its sticky error. Its
capacity is not modelled: it holds whatever it is given until `Flush`. -/
structure Writer where
  data : Bytes
  err : Option String
deriving DecidableEq, Repr

/-- What one call `enc.Encode(v)` of the gob encoder does: the bytes it hands to its writer and
the error it reports. -/
structure EncodeOutcome where
  emitted : Bytes
  err : Option String
deriving DecidableEq, Repr

/-- The values `Write` encodes: a frame header, and a body of any type. -/
inductive Value (β : Type) where
  | header (h : Server.Header)
  | body (b : β)

/-- Go `GobCodec{conn, buf, dec, enc}`; the encoder `enc` writes into `buf`, the decoder plays no
part in `Write`. -/
structure GobCodec where
  conn : Conn
  buf : Writer
deriving DecidableEq, Repr

/-- Go `NewGobCodec(conn)`. -/
def NewGobCodec (conn : Conn) : GobCodec :=
  { conn := conn, buf := { data := [], err := none } }

/-- Go `c.buf.Write(p)`, as the encoder calls it: refused once the writer has an error. -/
def GobCodec.bufWrite (c : GobCodec) (p : Bytes) : Option String × GobCodec :=
  match c.buf.err with
  | some e => (some e, c)
  | none => (none, { c with buf := { c.buf with data := c.buf.data ++ p } })

/-- Go `c.buf.Flush()`: hands the held bytes to the connection; a failure sticks to the writer. -/
def GobCodec.Flush (c : GobCodec) : Option String × GobCodec :=
  match c.buf.err with
  | some e => (some e, c)
  | none =>
    match c.buf.data with
    | [] => (none, c)
    | b :: bs =>
      match c.conn.Write (b :: bs) with
      | (some e, conn1) => (some e, { conn := conn1, buf := { c.buf with err := some e } })
      | (none, conn1) => (none, { conn := conn1, buf := { data := [], err := none } })

/-- Go `c.Close()`. -/
def GobCodec.Close (c : GobCodec) : GobCodec :=
  { c with conn := { c.conn with closed := true } }

/-- Go `c.enc.Encode(v)`: the encoder's bytes go to `buf`; the call reports the encoder's own
error, or else the error of that write. -/
def GobCodec.Encode {β : Type} (gob : Value β → EncodeOutcome) (c : GobCodec) (v : Value β) :
    Option String × GobCodec :=
  let out := gob v
  let w := c.bufWrite out.emitted
  match out.err with
  | some e => (some e, w.2)
  | none => (w.1, w.2)

/-- The deferred function of `Write`: flush, dropping the flush error, and close the codec when
`err` is set. -/
def GobCodec.writeDeferred (c : GobCodec) (err : Option String) : Option String × GobCodec :=
  let c1 := c.Flush.2
  match err with
  | some e => (some e, c1.Close)
  | none => (none, c1)

/-- Go `c.Write(h, body)`. -/
def GobCodec.Write {β : Type} (gob : Value β → EncodeOutcome) (c : GobCodec)
    (h : Server.Header) (body : β) : Option String × GobCodec :=
  match c.Encode gob (Value.header h) with
  | (some e, c1) => c1.writeDeferred (some e)
  | (none, c1) =>
    match c1.Encode gob (Value.body body) with
    | (some e, c2) => c2.writeDeferred (some e)
    | (none, c2) => c2.writeDeferred none

/-- The atomicity asked of `Write`: either it returns nil with the whole frame on the
connection, or it returns an error with the connection closed and none of the frame on it. -/
def WriteAtomic {β : Type} (gob : Value β → EncodeOutcome) (c : GobCodec)
    (h : Server.Header) (body : β) : Prop :=
  ((c.Write gob h body).1 = none ∧
    (c.Write gob h body).2.conn.wire
      = c.conn.wire ++ c.buf.data ++ (gob (Value.header h)).emitted
          ++ (gob (Value.body body)).emitted) ∨
  ((c.Write gob h body).1 ≠ none ∧ (c.Write gob h body).2.conn.closed = true ∧
    (c.Write gob h body).2.conn.wire = c.conn.wire)

/-- An encoder that encodes headers and fails on every body. -/
def gobBodyFails : Value String → EncodeOutcome
  | .header _ => { emitted := [1, 2, 3], err := none }
  | .body _ => { emitted := [], err := some "gob: type not registered" }

/-- An encoder that encodes headers and bodies. -/
def gobFine : Value String → EncodeOutcome
  | .header _ => { emitted := [1, 2, 3], err := none }
  | .body _ => { emitted := [4, 5], err := none }

end Gob

namespace Service

/-- The kinds of `reflect.Kind`. -/
inductive Kind where
  | Bool | Int | Int8 | Int16 | Int32 | Int64
  | Uint | Uint8 | Uint16 | Uint32 | Uint64 | Uintptr
  | Float32 | Float64 | Complex64 | Complex128
  | Array | Chan | Func | Interface | Map | Ptr | Slice | String | Struct | UnsafePointer
deriving DecidableEq, Repr

/-- Go types as `reflect.Type` shows them: predeclared types, defined (named) types of a
package, and the unnamed composite types. -/
inductive RType where
  | basic (kind : Kind) (name : String)
  | defined (pkgPath : String) (name : String) (underlying : RType)
  | ptr (elem : RType)
  | slice (elem : RType)
  | array (len : Nat) (elem : RType)
  | chan (elem : RType)
  | map (key : RType) (elem : RType)
  | structLit
  | funcLit
  | interfaceLit
deriving DecidableEq, Repr

/-- Go `t.Name()`: empty for unnamed types. -/
def RType.Name : RType → String
  | .basic _ name => name
  | .defined _ name _ => name
  | _ => ""

/-- Go `t.PkgPath()`: empty for predeclared and for unnamed types. -/
def RType.PkgPath : RType → String
  | .defined pkgPath _ _ => pkgPath
  | _ => ""

/-- Go `t.Kind()`. -/
def RType.Kind : RType → Kind
  | .basic kind _ => kind
  | .defined _ _ underlying => underlying.Kind
  | .ptr _ => Kind.Ptr
  | .slice _ => Kind.Slice
  | .array _ _ => Kind.Array
  | .chan _ => Kind.Chan
  | .map _ _ => Kind.Map
  | .structLit => Kind.Struct
  | .funcLit => Kind.Func
  | .interfaceLit => Kind.Interface

/-- Go `t.Elem()`: `none` is the panic of `Elem` on a kind other than Array, Chan, Map, Ptr or
Slice. -/
def RType.Elem : RType → Option RType
  | .defined _ _ underlying => underlying.Elem
  | .ptr elem => some elem
  | .slice elem => some elem
  | .array _ elem => some elem
  | .chan elem => some elem
  | .map _ elem => some elem
  | _ => none

/-- Go `reflect.TypeOf((*error)(nil)).Elem()`: the predeclared interface `error`. -/
def errorType : RType :=
  RType.basic Kind.Interface "error"

/-- The predeclared type `int`. -/
def intType : RType :=
  RType.basic Kind.Int "int"

/-- A `reflect.Method` of the receiver: its name and the parameter and result types of its
function type, the receiver being the first parameter. -/
structure Method where
  Name : String
  In : List RType
  Out : List RType
deriving DecidableEq, Repr

/-- Go `methodType{method, ArgType, ReplyType, numCalls}`. -/
structure methodType where
  method : Method
  ArgType : RType
  ReplyType : RType
  numCalls : Nat
deriving DecidableEq, Repr

/-- Go `ast.IsExported(name)`: whether the first rune of `name` is upper case; `upper` stands for
`unicode.IsUpper`. -/
def IsExported (upper : Char → Bool) (name : String) : Bool :=
  match name.data with
  | [] => false
  | c :: _ => upper c

/-- Go `isExportedOrBuiltinType(t)`. -/
def isExportedOrBuiltinType (upper : Char → Bool) (t : RType) : Bool :=
  IsExported upper t.Name || t.PkgPath == ""

/-- The Go map `map[string]*methodType`, as an association list. -/
abbrev MethodMap := List (String × methodType)

/-- Indexing `s.method[name]`. -/
def methodGet (m : MethodMap) (name : String) : Option methodType :=
  match m with
  | [] => none
  | (k, v) :: rest => if k = name then some v else methodGet rest name

/-- Assignment `s.method[name] = mt`. -/
def methodSet (m : MethodMap) (name : String) (mt : methodType) : MethodMap :=
  match m with
  | [] => [(name, mt)]
  | (k, v) :: rest => if k = name then (k, mt) :: rest else (k, v) :: methodSet rest name mt

/-- One iteration of the loop of `registerMethods`: `none` is a `continue`, `some` the
descriptor stored under the method's name. -/
def registerOne (upper : Char → Bool) (method : Method) : Option methodType :=
  if method.In.length ≠ 3 ∨ method.Out.length ≠ 1 then
    none
  else if method.Out.get? 0 ≠ some errorType then
    none
  else
    match method.In.get? 1, method.In.get? 2 with
    | some argType, some replyType =>
      if !isExportedOrBuiltinType upper argType || !isExportedOrBuiltinType upper replyType then
        none
      else
        some { method := method, ArgType := argType, ReplyType := replyType, numCalls := 0 }
    | _, _ => none

/-- The loop of `registerMethods` over the methods `typ.Method(i)`, `i = 0, 1, ...`. -/
def registerLoop (upper : Char → Bool) (methods : List Method) (table : MethodMap) :
    MethodMap :=
  match methods with
  | [] => table
  | method :: rest =>
    match registerOne upper method with
    | none => registerLoop upper rest table
    | some mt => registerLoop upper rest (methodSet table method.Name mt)

/-- Go `registerMethods()` on a receiver type with the given method set. -/
def registerMethods (upper : Char → Bool) (methods : List Method) : MethodMap :=
  registerLoop upper methods []

/-- What a fresh pointer from `reflect.New` points to after `newReplyv`: the zero value of the
type, or the empty map or slice set into it. -/
inductive Contents where
  | zero (t : RType)
  | emptyMap (t : RType)
  | emptySlice (t : RType) (len : Nat) (cap : Nat)
deriving DecidableEq, Repr

/-- A `reflect.Value` holding a pointer to a fresh variable of type `elemType`. -/
structure Pointer where
  elemType : RType
  contents : Contents
deriving DecidableEq, Repr

/-- Go `newReplyv()`: `none` is a panic. -/
def newReplyv (m : methodType) : Option Pointer :=
  match m.ReplyType.Elem with
  | none => none
  | some elemType =>
    let replyv : Pointer := { elemType := elemType, contents := Contents.zero elemType }
    match elemType.Kind with
    | Kind.Map => some { replyv with contents := Contents.emptyMap elemType }
    | Kind.Slice => some { replyv with contents := Contents.emptySlice elemType 0 0 }
    | _ => some replyv

/-- The receiver type of the example: `Sum(args Args, reply *int) error`, which has the shape
asked for, and `Bad(arg int, reply int) error`, whose reply is not a pointer. -/
def fooMethods : List Method :=
  [ { Name := "Bad", In := [RType.defined "main" "Foo" RType.structLit, intType, intType],
      Out := [errorType] },
    { Name := "Sum",
      In := [RType.defined "main" "Foo" RType.structLit,
             RType.defined "main" "Args" RType.structLit, RType.ptr intType],
      Out := [errorType] } ]

end Service

namespace Registry

theorem aliveLoop_fst (t : Int) (now : Time) (todo : ServerMap) :
    ∀ (alive : List String) (servers : ServerMap),
      (aliveLoop t now todo alive servers).1
        = alive ++ (todo.filter (fun kv => isAlive t now kv.2)).map Prod.fst := by
  induction todo with
  | nil => intro alive servers; simp [aliveLoop]
  | cons kv rest ih =>
    intro alive servers
    obtain ⟨addr, s⟩ := kv
    by_cases h : isAlive t now s = true
    · simp [aliveLoop, h, ih]
    · simp [aliveLoop, h, ih]

theorem aliveLoop_snd_sublist (t : Int) (now : Time) (todo : ServerMap) :
    ∀ (alive : List String) (servers : ServerMap),
      ((aliveLoop t now todo alive servers).2).Sublist servers := by
  induction todo with
  | nil => intro alive servers; simp [aliveLoop]
  | cons kv rest ih =>
    intro alive servers
    obtain ⟨addr, s⟩ := kv
    by_cases h : isAlive t now s = true
    · simpa [aliveLoop, h] using ih _ _
    · have h1 := ih alive (mapDelete servers addr)
      have h2 : (mapDelete servers addr).Sublist servers := List.filter_sublist _
      simpa [aliveLoop, h] using h1.trans h2

theorem isAlive_iff (t : Int) (now : Time) (s : ServerItem) :
    isAlive t now s = true ↔ (t = 0 ∨ s.start + t > now) := by
  simp [isAlive]

theorem aliveServers_perm (r : GeeRegistry) (now : Time) :
    (aliveServers r now).1.Perm
      ((r.servers.filter (fun kv => isAlive r.timeout now kv.2)).map Prod.fst) := by
  have h := List.perm_insertionSort (· ≤ ·)
    ((r.servers.filter (fun kv => isAlive r.timeout now kv.2)).map Prod.fst)
  simpa [aliveServers, sortStrings, aliveLoop_fst] using h

theorem aliveServers_sorted_le (r : GeeRegistry) (now : Time) :
    (aliveServers r now).1.Sorted (· ≤ ·) := by
  simp only [aliveServers, sortStrings]
  exact List.sorted_insertionSort (· ≤ ·) _

theorem aliveServers_nodup (r : GeeRegistry) (now : Time) (h : NodupKeys r.servers) :
    (aliveServers r now).1.Nodup := by
  rw [(aliveServers_perm r now).nodup_iff]
  exact List.Nodup.sublist ((List.filter_sublist _).map _) h

theorem aliveServers_mem (r : GeeRegistry) (now : Time) (a : String) :
    a ∈ (aliveServers r now).1 ↔
      ∃ s, (a, s) ∈ r.servers ∧ (r.timeout = 0 ∨ s.start + r.timeout > now) := by
  rw [(aliveServers_perm r now).mem_iff]
  simp only [List.mem_map, List.mem_filter, Prod.exists, isAlive_iff]
  constructor
  · rintro ⟨k, s, ⟨hm, hal⟩, rfl⟩
    exact ⟨s, hm, hal⟩
  · rintro ⟨s, hm, hal⟩
    exact ⟨a, s, ⟨hm, hal⟩, rfl⟩

theorem aliveServers_timeout (r : GeeRegistry) (now : Time) :
    (aliveServers r now).2.timeout = r.timeout := rfl

theorem aliveServers_servers_sublist (r : GeeRegistry) (now : Time) :
    ((aliveServers r now).2.servers).Sublist r.servers := by
  simpa [aliveServers] using aliveLoop_snd_sublist r.timeout now r.servers [] r.servers

theorem ServeHTTP_get (r : GeeRegistry) (now : Time) (w : ResponseWriter) (req : Request)
    (h : req.Method = "GET") :
    ServeHTTP r now w req
      = ((aliveServers r now).2,
          w.Set "X-HakusaiRpc-Servers" (joinComma (aliveServers r now).1)) := by
  simp [ServeHTTP, h]

theorem ServeHTTP_post (r : GeeRegistry) (now : Time) (w : ResponseWriter) (req : Request)
    (h : req.Method = "POST") (hs : req.server ≠ "") :
    ServeHTTP r now w req = (putServer r now req.server, w) := by
  simp [ServeHTTP, h, hs]

theorem ServeHTTP_post_empty (r : GeeRegistry) (now : Time) (w : ResponseWriter)
    (req : Request) (h : req.Method = "POST") (hs : req.server = "") :
    ServeHTTP r now w req = (r, w.WriteHeader 500) := by
  simp [ServeHTTP, h, hs]

theorem ServeHTTP_other (r : GeeRegistry) (now : Time) (w : ResponseWriter) (req : Request)
    (hg : req.Method ≠ "GET") (hp : req.Method ≠ "POST") :
    ServeHTTP r now w req = (r, w.WriteHeader 405) := by
  simp [ServeHTTP, hg, hp]

theorem get_set (w : ResponseWriter) (key value : String) :
    (w.Set key value).Get key = value := by
  simp [ResponseWriter.Set, ResponseWriter.Get]

/-- C6: for every registry table (a Go map: no key twice), timeout and query time,
`aliveServers` returns, strictly ascending and hence without duplicates, exactly the addresses
of the table with `timeout = 0` or `start + timeout > now`, and a GET answers with that list
joined by commas in the header `X-HakusaiRpc-Servers`. -/
theorem aliveServers_sorted_exact (r : GeeRegistry) (now : Time) (w : ResponseWriter)
    (req : Request) (hmap : NodupKeys r.servers) (hget : req.Method = "GET") :
    (aliveServers r now).1.Sorted (· < ·) ∧
    (aliveServers r now).1.Nodup ∧
    (∀ a, a ∈ (aliveServers r now).1 ↔
      ∃ s, (a, s) ∈ r.servers ∧ (r.timeout = 0 ∨ s.start + r.timeout > now)) ∧
    (ServeHTTP r now w req).2.Get "X-HakusaiRpc-Servers"
      = joinComma (aliveServers r now).1 := by
  refine ⟨?_, aliveServers_nodup r now hmap, aliveServers_mem r now, ?_⟩
  · exact (aliveServers_sorted_le r now).lt_of_le (aliveServers_nodup r now hmap)
  · rw [ServeHTTP_get r now w req hget]
    exact get_set _ _ _

/-- Witness of C6 on a table of two entries, one of them expired. -/
theorem aliveServers_sorted_exact_witness :
    NodupKeys [("b", ⟨"b", 0⟩), ("a", ⟨"a", 10⟩)] ∧
    (aliveServers ⟨5, [("b", ⟨"b", 0⟩), ("a", ⟨"a", 10⟩)]⟩ 7).1.Sorted (· < ·) ∧
    (ServeHTTP ⟨5, [("b", ⟨"b", 0⟩), ("a", ⟨"a", 10⟩)]⟩ 7 ResponseWriter.fresh
        ⟨"GET", ""⟩).2.Get "X-HakusaiRpc-Servers" = "a" :=
  have h := aliveServers_sorted_exact ⟨5, [("b", ⟨"b", 0⟩), ("a", ⟨"a", 10⟩)]⟩ 7
    ResponseWriter.fresh ⟨"GET", ""⟩ (by decide) rfl
  ⟨by decide, h.1, by decide⟩

theorem putServer_onlyAddr (a : String) (t : Int) (r : GeeRegistry) (now : Time)
    (h : OnlyAddr a t r) : (putServer r now a).timeout = t ∧
      (putServer r now a).servers = [(a, ⟨a, now⟩)] := by
  obtain ⟨ht, hs | ⟨τ, hs⟩⟩ := h
  · simp [putServer, hs, mapGet, mapSet, ht]
  · simp [putServer, hs, mapGet, mapSet, ht]

theorem ServeHTTP_onlyAddr (a : String) (t : Int) (r : GeeRegistry) (now : Time)
    (w : ResponseWriter) (req : Request) (h : OnlyAddr a t r)
    (hreq : req.Method = "POST" → req.server = a ∨ req.server = "") :
    OnlyAddr a t (ServeHTTP r now w req).1 := by
  by_cases hg : req.Method = "GET"
  · rw [ServeHTTP_get r now w req hg]
    refine ⟨h.1, ?_⟩
    have hsub := aliveServers_servers_sublist r now
    rcases h.2 with hs | ⟨τ, hs⟩
    · left
      rw [hs] at hsub
      exact List.eq_nil_of_sublist_nil hsub
    · rw [hs] at hsub
      rcases List.sublist_cons_iff.mp hsub with h1 | ⟨l, h1, h2⟩
      · left; exact List.eq_nil_of_sublist_nil h1
      · right
        have : l = [] := List.eq_nil_of_sublist_nil h2
        exact ⟨τ, by rw [h1, this]⟩
  · by_cases hp : req.Method = "POST"
    · by_cases he : req.server = ""
      · rw [ServeHTTP_post_empty r now w req hp he]
        exact h
      · have ha : req.server = a := (hreq hp).resolve_right he
        have hput := putServer_onlyAddr a t r now h
        rw [ServeHTTP_post r now w req hp he, ha]
        exact ⟨hput.1, Or.inr ⟨now, hput.2⟩⟩
    · rw [ServeHTTP_other r now w req hg hp]
      exact h

theorem serveAll_onlyAddr (a : String) (t : Int) (reqs : List (Time × Request)) :
    ∀ (r : GeeRegistry), OnlyAddr a t r →
      (∀ q ∈ reqs, q.2.Method = "POST" → q.2.server = a ∨ q.2.server = "") →
      OnlyAddr a t (serveAll r reqs) := by
  induction reqs with
  | nil => intro r h _; simpa [serveAll] using h
  | cons q rest ih =>
    intro r h hq
    have h1 := ServeHTTP_onlyAddr a t r q.1 ResponseWriter.fresh q.2 h
      (hq q (List.mem_cons_self _ _))
    have h2 := ih _ h1 (fun q' hq' => hq q' (List.mem_cons_of_mem _ hq'))
    simpa [serveAll] using h2

theorem serveAll_append (r : GeeRegistry) (xs ys : List (Time × Request)) :
    serveAll r (xs ++ ys) = serveAll (serveAll r xs) ys := by
  simp [serveAll, List.foldl_append]

theorem joinComma_singleton (a : String) : joinComma [a] = a := by
  simp [joinComma, String.intercalate, String.intercalate.go]

theorem joinComma_nil : joinComma [] = "" := by
  simp [joinComma, String.intercalate]

theorem aliveServers_single (t : Int) (a : String) (T0 T1 : Time) :
    (aliveServers ⟨t, [(a, ⟨a, T0⟩)]⟩ T1).1
      = if isAlive t T1 ⟨a, T0⟩ then [a] else [] := by
  by_cases h : isAlive t T1 ⟨a, T0⟩ = true
  · simp [aliveServers, aliveLoop, h, sortStrings]
  · simp [aliveServers, aliveLoop, h, sortStrings]

/-- C7: from the empty registry with timeout `t > 0`, after any requests that post no other
address than `a` and a last POST of `a` at `T0`, the table holds the single entry of `a` with
`start = T0` (a repeated POST refreshes it and adds no entry); a GET at `T1 < T0 + t` answers
the header value `a`, and a GET at `T1 > T0 + t` answers the empty list. -/
theorem post_then_get (t : Int) (a : String) (pre : List (Time × Request)) (T0 T1 : Time)
    (w : ResponseWriter) (get : Request) (ht : 0 < t) (ha : a ≠ "")
    (hpre : ∀ q ∈ pre, q.2.Method = "POST" → q.2.server = a ∨ q.2.server = "")
    (hget : get.Method = "GET") :
    (serveAll (New t) (pre ++ [(T0, ⟨"POST", a⟩)])).servers = [(a, ⟨a, T0⟩)] ∧
    (T1 < T0 + t →
      (ServeHTTP (serveAll (New t) (pre ++ [(T0, ⟨"POST", a⟩)])) T1 w get).2.Get
        "X-HakusaiRpc-Servers" = a) ∧
    (T0 + t < T1 →
      (aliveServers (serveAll (New t) (pre ++ [(T0, ⟨"POST", a⟩)])) T1).1 = [] ∧
      (ServeHTTP (serveAll (New t) (pre ++ [(T0, ⟨"POST", a⟩)])) T1 w get).2.Get
        "X-HakusaiRpc-Servers" = "") := by
  have hinv : OnlyAddr a t (serveAll (New t) pre) :=
    serveAll_onlyAddr a t pre (New t) ⟨rfl, Or.inl rfl⟩ hpre
  have hput := putServer_onlyAddr a t _ T0 hinv
  have hr : serveAll (New t) (pre ++ [(T0, ⟨"POST", a⟩)]) = ⟨t, [(a, ⟨a, T0⟩)]⟩ := by
    rw [serveAll_append]
    have : serveAll (serveAll (New t) pre) [(T0, ⟨"POST", a⟩)]
        = putServer (serveAll (New t) pre) T0 a := by
      simp [serveAll, ServeHTTP, ha]
    rw [this]
    cases hp : putServer (serveAll (New t) pre) T0 a with
    | mk tmo sv =>
      rw [hp] at hput
      simp only at hput
      rw [hput.1, hput.2]
  rw [hr]
  refine ⟨rfl, ?_, ?_⟩
  · intro h1
    have hal : isAlive t T1 ⟨a, T0⟩ = true := (isAlive_iff _ _ _).mpr (Or.inr h1)
    rw [ServeHTTP_get _ _ _ _ hget, get_set, aliveServers_single, if_pos hal,
      joinComma_singleton]
  · intro h1
    have hal : ¬ isAlive t T1 ⟨a, T0⟩ = true := by
      rw [isAlive_iff]
      rintro (h | h)
      · exact absurd h (ne_of_gt ht)
      · exact lt_asymm h1 h
    rw [ServeHTTP_get _ _ _ _ hget, get_set, aliveServers_single, if_neg hal, joinComma_nil]
    exact ⟨rfl, rfl⟩

/-- Witness of C7: two POSTs of one address and a GET between them, timeout 5; a GET one
unit after the last POST, and a GET eight units after it. -/
theorem post_then_get_witness :
    (serveAll (New 5)
      ([(0, ⟨"POST", "10.0.0.1:9999"⟩), (1, ⟨"GET", ""⟩)] ++
        [(2, ⟨"POST", "10.0.0.1:9999"⟩)])).servers
      = [("10.0.0.1:9999", ⟨"10.0.0.1:9999", 2⟩)] ∧
    (ServeHTTP (serveAll (New 5)
        ([(0, ⟨"POST", "10.0.0.1:9999"⟩), (1, ⟨"GET", ""⟩)] ++
          [(2, ⟨"POST", "10.0.0.1:9999"⟩)])) 3 ResponseWriter.fresh ⟨"GET", ""⟩).2.Get
        "X-HakusaiRpc-Servers" = "10.0.0.1:9999" ∧
    (ServeHTTP (serveAll (New 5)
        ([(0, ⟨"POST", "10.0.0.1:9999"⟩), (1, ⟨"GET", ""⟩)] ++
          [(2, ⟨"POST", "10.0.0.1:9999"⟩)])) 10 ResponseWriter.fresh ⟨"GET", ""⟩).2.Get
        "X-HakusaiRpc-Servers" = "" :=
  ⟨(post_then_get 5 "10.0.0.1:9999" [(0, ⟨"POST", "10.0.0.1:9999"⟩), (1, ⟨"GET", ""⟩)] 2 3
      ResponseWriter.fresh ⟨"GET", ""⟩ (by decide) (by decide) (by decide) rfl).1,
   (post_then_get 5 "10.0.0.1:9999" [(0, ⟨"POST", "10.0.0.1:9999"⟩), (1, ⟨"GET", ""⟩)] 2 3
      ResponseWriter.fresh ⟨"GET", ""⟩ (by decide) (by decide) (by decide) rfl).2.1
      (by decide),
   ((post_then_get 5 "10.0.0.1:9999" [(0, ⟨"POST", "10.0.0.1:9999"⟩), (1, ⟨"GET", ""⟩)] 2 10
      ResponseWriter.fresh ⟨"GET", ""⟩ (by decide) (by decide) (by decide) rfl).2.2
      (by decide)).2⟩

theorem mapGet_mapSet_ne (m : ServerMap) (addr b : String) (s : ServerItem) (h : b ≠ addr) :
    mapGet (mapSet m addr s) b = mapGet m b := by
  induction m with
  | nil => simp [mapSet, mapGet, Ne.symm h]
  | cons kv rest ih =>
    obtain ⟨k, v⟩ := kv
    by_cases hk : k = addr
    · subst hk
      simp [mapSet, mapGet, Ne.symm h]
    · by_cases hb : k = b
      · subst hb
        simp [mapSet, mapGet, hk]
      · simp [mapSet, mapGet, hk, hb, ih]

theorem mapGet_mapSet_self (m : ServerMap) (addr : String) (s : ServerItem) :
    mapGet (mapSet m addr s) addr = some s := by
  induction m with
  | nil => simp [mapSet, mapGet]
  | cons kv rest ih =>
    obtain ⟨k, v⟩ := kv
    by_cases hk : k = addr
    · simp [mapSet, mapGet, hk]
    · simp [mapSet, mapGet, hk, ih]

theorem putServer_other (r : GeeRegistry) (now : Time) (addr b : String) (h : b ≠ addr) :
    mapGet (putServer r now addr).servers b = mapGet r.servers b := by
  unfold putServer
  cases mapGet r.servers addr with
  | none => exact mapGet_mapSet_ne _ _ _ _ h
  | some s => exact mapGet_mapSet_ne _ _ _ _ h

theorem putServer_self (r : GeeRegistry) (now : Time) (addr : String) :
    ∃ s, mapGet (putServer r now addr).servers addr = some s ∧ s.start = now := by
  unfold putServer
  cases mapGet r.servers addr with
  | none => exact ⟨_, mapGet_mapSet_self _ _ _, rfl⟩
  | some s => exact ⟨_, mapGet_mapSet_self _ _ _, rfl⟩

theorem putServer_timeout (r : GeeRegistry) (now : Time) (addr : String) :
    (putServer r now addr).timeout = r.timeout := by
  unfold putServer
  cases mapGet r.servers addr <;> rfl

/-- C8: the status of `ServeHTTP` is 200 for GET and for POST with a non-empty
`X-HakusaiRpc-Server` header, 500 for POST with that header missing or empty, 405 for every
other method; the registry is unchanged in the 500 and 405 cases, and a successful POST
touches only the entry of the posted address, whose `start` becomes the current time. -/
theorem ServeHTTP_status (r : GeeRegistry) (now : Time) (req : Request) :
    (req.Method = "GET" →
      (ServeHTTP r now ResponseWriter.fresh req).2.statusCode = 200) ∧
    (req.Method = "POST" → req.server ≠ "" →
      (ServeHTTP r now ResponseWriter.fresh req).2.statusCode = 200 ∧
      (ServeHTTP r now ResponseWriter.fresh req).1.timeout = r.timeout ∧
      (∀ b, b ≠ req.server →
        mapGet (ServeHTTP r now ResponseWriter.fresh req).1.servers b = mapGet r.servers b) ∧
      ∃ s, mapGet (ServeHTTP r now ResponseWriter.fresh req).1.servers req.server = some s ∧
        s.start = now) ∧
    (req.Method = "POST" → req.server = "" →
      (ServeHTTP r now ResponseWriter.fresh req).2.statusCode = 500 ∧
      (ServeHTTP r now ResponseWriter.fresh req).1 = r) ∧
    (req.Method ≠ "GET" → req.Method ≠ "POST" →
      (ServeHTTP r now ResponseWriter.fresh req).2.statusCode = 405 ∧
      (ServeHTTP r now ResponseWriter.fresh req).1 = r) := by
  refine ⟨?_, ?_, ?_, ?_⟩
  · intro hg
    rw [ServeHTTP_get r now _ req hg]
    rfl
  · intro hp hs
    rw [ServeHTTP_post r now _ req hp hs]
    exact ⟨rfl, putServer_timeout r now _, fun b hb => putServer_other r now _ b hb,
      putServer_self r now _⟩
  · intro hp hs
    rw [ServeHTTP_post_empty r now _ req hp hs]
    exact ⟨rfl, rfl⟩
  · intro hg hp
    rw [ServeHTTP_other r now _ req hg hp]
    exact ⟨rfl, rfl⟩

/-- Witness of C8: a POST without address, and a DELETE, on a table of one entry. -/
theorem ServeHTTP_status_witness :
    ((ServeHTTP ⟨5, [("a", ⟨"a", 1⟩)]⟩ 3 ResponseWriter.fresh ⟨"POST", ""⟩).2.statusCode = 500 ∧
      (ServeHTTP ⟨5, [("a", ⟨"a", 1⟩)]⟩ 3 ResponseWriter.fresh ⟨"POST", ""⟩).1
        = ⟨5, [("a", ⟨"a", 1⟩)]⟩) ∧
    ((ServeHTTP ⟨5, [("a", ⟨"a", 1⟩)]⟩ 3 ResponseWriter.fresh ⟨"DELETE", "b"⟩).2.statusCode
        = 405 ∧
      (ServeHTTP ⟨5, [("a", ⟨"a", 1⟩)]⟩ 3 ResponseWriter.fresh ⟨"DELETE", "b"⟩).1
        = ⟨5, [("a", ⟨"a", 1⟩)]⟩) ∧
    (ServeHTTP ⟨5, [("a", ⟨"a", 1⟩)]⟩ 3 ResponseWriter.fresh ⟨"POST", "b"⟩).2.statusCode
        = 200 ∧
    (ServeHTTP ⟨5, [("a", ⟨"a", 1⟩)]⟩ 3 ResponseWriter.fresh ⟨"GET", ""⟩).2.statusCode
        = 200 :=
  ⟨(ServeHTTP_status ⟨5, [("a", ⟨"a", 1⟩)]⟩ 3 ⟨"POST", ""⟩).2.2.1 rfl rfl,
   (ServeHTTP_status ⟨5, [("a", ⟨"a", 1⟩)]⟩ 3 ⟨"DELETE", "b"⟩).2.2.2 (by decide) (by decide),
   ((ServeHTTP_status ⟨5, [("a", ⟨"a", 1⟩)]⟩ 3 ⟨"POST", "b"⟩).2.1 rfl (by decide)).1,
   (ServeHTTP_status ⟨5, [("a", ⟨"a", 1⟩)]⟩ 3 ⟨"GET", ""⟩).1 rfl⟩

end Registry

namespace Server

theorem readRequest_nil (cc : Codec) (h0 : cc.conn.headers = []) :
    readRequest cc = ((none, some "EOF"), cc) := by
  simp [readRequest, readRequestHeader, Codec.ReadHeader, h0]

theorem readRequest_fail (cc : Codec) (e : String) (rest : List (Decoded Header))
    (h0 : cc.conn.headers = .fail e :: rest) :
    readRequest cc = ((none, some e), { conn := { cc.conn with headers := rest } }) := by
  simp [readRequest, readRequestHeader, Codec.ReadHeader, h0]

theorem readRequest_ok (cc : Codec) (h : Header) (rest : List (Decoded Header))
    (h0 : cc.conn.headers = .ok h :: rest) :
    ∃ argv cc2, readRequest cc = ((some { h := h, argv := argv, replyv := none }, none), cc2) ∧
      cc2.conn.headers = rest ∧ cc2.conn.written = cc.conn.written ∧
      cc2.conn.closed = cc.conn.closed ∧ cc2.conn.handshake = cc.conn.handshake := by
  cases hb : cc.conn.bodies with
  | nil =>
    refine ⟨"", { conn := { cc.conn with headers := rest } }, ?_, rfl, rfl, rfl, rfl⟩
    simp [readRequest, readRequestHeader, Codec.ReadHeader, Codec.ReadBody, h0, hb]
  | cons b bs =>
    cases b with
    | ok v =>
      refine ⟨v, { conn := { cc.conn with headers := rest, bodies := bs } }, ?_,
        rfl, rfl, rfl, rfl⟩
      simp [readRequest, readRequestHeader, Codec.ReadHeader, Codec.ReadBody, h0, hb]
    | fail e =>
      refine ⟨"", { conn := { cc.conn with headers := rest, bodies := bs } }, ?_,
        rfl, rfl, rfl, rfl⟩
      simp [readRequest, readRequestHeader, Codec.ReadHeader, Codec.ReadBody, h0, hb]

theorem inv_start (hs : List Header) (tail : List (Decoded Header)) (cc : Codec)
    (hh : cc.conn.headers = hs.map Decoded.ok ++ tail) (hw : cc.conn.written = [])
    (hc : cc.conn.closed = false) : Inv hs tail (start cc) := by
  refine ⟨[], hs, rfl, ?_, ?_, ?_, ?_, ?_⟩
  · simp [start, hw]
  · intro _; exact ⟨hh, hc⟩
  · intro h; cases h
  · intro h; cases h
  · intro h; cases h

theorem perm_pick {α : Type} (l : List α) : ∀ (i : Nat) (r : α),
    l.get? i = some r → l.Perm (r :: l.eraseIdx i) := by
  induction l with
  | nil => intro i r h; simp at h
  | cons a l ih =>
    intro i r h
    cases i with
    | zero =>
      simp at h
      subst h
      simp
    | succ i =>
      simp at h
      have h1 := ih i r (by simpa using h)
      simp only [List.eraseIdx_cons_succ]
      exact (List.Perm.cons a h1).trans (List.Perm.swap r a _)

theorem inv_mainStep (hs : List Header) (tail : List (Decoded Header))
    (ht : StartsBroken tail) (s : ServerState) (h : Inv hs tail s) :
    Inv hs tail (mainStep s) := by
  obtain ⟨done, todo, hsplit, hperm, hr, hw, hc, hp⟩ := h
  cases hph : s.phase with
  | reading =>
    obtain ⟨hhead, hclosed⟩ := hr hph
    cases todo with
    | nil =>
      simp only [List.map_nil, List.nil_append] at hhead
      cases tail with
      | nil =>
        have hrr := readRequest_nil s.cc hhead
        refine ⟨done, [], hsplit, ?_, ?_, ?_, ?_, ?_⟩ <;>
          simp [mainStep, hph, hrr, hperm, hhead, hclosed]
      | cons d rest =>
        cases d with
        | ok h0 => exact absurd rfl (ht h0 rest)
        | fail e =>
          have hrr := readRequest_fail s.cc e rest hhead
          refine ⟨done, [], hsplit, ?_, ?_, ?_, ?_, ?_⟩ <;>
            simp [mainStep, hph, hrr, hperm, hclosed]
    | cons h0 todo1 =>
      simp only [List.map_cons, List.cons_append] at hhead
      obtain ⟨argv, cc2, hrr, hh2, hw2, hc2, _⟩ := readRequest_ok s.cc h0 _ hhead
      refine ⟨done ++ [h0], todo1, by simp [hsplit], ?_, ?_, ?_, ?_, ?_⟩
      · simp only [mainStep, hph, hrr, hw2, List.map_append, List.map_cons, List.map_nil]
        rw [← List.append_assoc]
        exact List.Perm.append_right _ hperm
      · intro _
        simp [mainStep, hph, hrr, hh2, hc2, hclosed]
      · simp [mainStep, hph, hrr]
      · simp [mainStep, hph, hrr]
      · simp [mainStep, hph, hrr]
  | waiting =>
    obtain ⟨htodo, hhead, hclosed⟩ := hw hph
    cases hrun : s.running with
    | nil =>
      refine ⟨done, todo, hsplit, ?_, ?_, ?_, ?_, ?_⟩
      · simpa [mainStep, hph, hrun, Codec.Close, Conn.Close] using hperm
      · simp [mainStep, hph, hrun]
      · simp [mainStep, hph, hrun]
      · intro _
        simp [mainStep, hph, hrun, Codec.Close, Conn.Close, htodo, hhead]
      · simp [mainStep, hph, hrun]
    | cons r rs =>
      have hsame : mainStep s = s := by simp [mainStep, hph, hrun]
      rw [hsame]
      exact ⟨done, todo, hsplit, hperm, hr, hw, hc, hp⟩
  | closed =>
    have hsame : mainStep s = s := by simp [mainStep, hph]
    rw [hsame]
    exact ⟨done, todo, hsplit, hperm, hr, hw, hc, hp⟩
  | panicked => exact absurd hph hp

theorem inv_handlerStep (hs : List Header) (tail : List (Decoded Header))
    (i : Nat) (s : ServerState) (h : Inv hs tail s) :
    Inv hs tail (handlerStep i s) := by
  obtain ⟨done, todo, hsplit, hperm, hr, hw, hc, hp⟩ := h
  cases hget : s.running.get? i with
  | none =>
    have hsame : handlerStep i s = s := by simp only [handlerStep, hget]
    rw [hsame]
    exact ⟨done, todo, hsplit, hperm, hr, hw, hc, hp⟩
  | some req =>
    have hpick := perm_pick s.running i req hget
    have hstep : handlerStep i s
        = { s with cc := handleRequest s.cc req, running := s.running.eraseIdx i } := by
      simp only [handlerStep, hget]
    have hwr : (handleRequest s.cc req).conn.written = s.cc.conn.written ++ [respOf req.h] := by
      simp [handleRequest, sendResponse, Codec.Write, respOf]
    have hhd : (handleRequest s.cc req).conn.headers = s.cc.conn.headers := by
      simp [handleRequest, sendResponse, Codec.Write]
    have hcl : (handleRequest s.cc req).conn.closed = s.cc.conn.closed := by
      simp [handleRequest, sendResponse, Codec.Write]
    rw [hstep]
    refine ⟨done, todo, hsplit, ?_, ?_, ?_, ?_, hp⟩
    · simp only [hwr]
      refine List.Perm.trans ?_ hperm
      rw [List.append_assoc]
      refine List.Perm.append_left _ ?_
      have h2 := (hpick.map (fun r => respOf r.h)).symm
      simpa using h2
    · intro hph
      simpa [hhd, hcl] using hr hph
    · intro hph
      simpa [hhd, hcl] using hw hph
    · intro hph
      have h4 := hc hph
      rw [h4.2.2.1] at hget
      simp at hget

theorem inv_step (hs : List Header) (tail : List (Decoded Header))
    (ht : StartsBroken tail) (s : ServerState) (a : Action) (h : Inv hs tail s) :
    Inv hs tail (step s a) := by
  cases a with
  | main => exact inv_mainStep hs tail ht s h
  | handler i => exact inv_handlerStep hs tail i s h

theorem inv_run (hs : List Header) (tail : List (Decoded Header))
    (ht : StartsBroken tail) (sched : List Action) :
    ∀ s, Inv hs tail s → Inv hs tail (run sched s) := by
  induction sched with
  | nil => intro s h; exact h
  | cons a rest ih =>
    intro s h
    exact ih _ (inv_step hs tail ht s a h)

theorem mainStep_not_reading (s : ServerState) (h : s.phase ≠ .reading) :
    (mainStep s).phase ≠ .reading := by
  cases hph : s.phase with
  | reading => exact absurd hph h
  | waiting =>
    cases hrun : s.running with
    | nil => simp [mainStep, hph, hrun]
    | cons r rs => simp [mainStep, hph, hrun]
  | closed => simp [mainStep, hph]
  | panicked => simp [mainStep, hph]

theorem mains_not_reading (n : Nat) : ∀ (s : ServerState), s.phase ≠ .reading →
    (run (List.replicate n Action.main) s).phase ≠ .reading := by
  induction n with
  | zero => intro s h; simpa [run] using h
  | succ k ih =>
    intro s h
    have := ih (mainStep s) (mainStep_not_reading s h)
    simpa [run, List.replicate_succ, step] using this

theorem mains_leave_reading (n : Nat) : ∀ (s : ServerState),
    s.cc.conn.headers.length < n →
    (run (List.replicate n Action.main) s).phase ≠ .reading := by
  induction n with
  | zero => intro s h; omega
  | succ k ih =>
    intro s hlen
    have hrun : run (List.replicate (k + 1) Action.main) s
        = run (List.replicate k Action.main) (mainStep s) := by
      simp [run, List.replicate_succ, step]
    rw [hrun]
    by_cases hph : s.phase = .reading
    · cases hh : s.cc.conn.headers with
      | nil =>
        apply mains_not_reading
        simp [mainStep, hph, readRequest_nil s.cc hh]
      | cons d rest =>
        cases d with
        | fail e =>
          apply mains_not_reading
          simp [mainStep, hph, readRequest_fail s.cc e rest hh]
        | ok h0 =>
          obtain ⟨argv, cc2, hrr, hh2, _, _, _⟩ := readRequest_ok s.cc h0 rest hh
          apply ih
          rw [hh] at hlen
          simp only [List.length_cons] at hlen
          simp only [mainStep, hph, hrr, hh2]
          omega
    · exact mains_not_reading k _ (mainStep_not_reading s hph)

theorem handlers_drain (n : Nat) : ∀ (s : ServerState), s.running.length = n →
    (run (List.replicate n (Action.handler 0)) s).running = [] ∧
    (run (List.replicate n (Action.handler 0)) s).phase = s.phase := by
  induction n with
  | zero =>
    intro s h
    exact ⟨by simpa [run] using List.length_eq_zero.mp h, by simp [run]⟩
  | succ k ih =>
    intro s h
    cases hrun : s.running with
    | nil => rw [hrun] at h; simp at h
    | cons r rs =>
      have hstep : handlerStep 0 s = { s with cc := handleRequest s.cc r, running := rs } := by
        simp only [handlerStep, hrun, List.get?_cons_zero, List.eraseIdx_cons_zero]
      have hlen : (handlerStep 0 s).running.length = k := by
        rw [hstep]
        rw [hrun] at h
        simpa using h
      have h2 := ih (handlerStep 0 s) hlen
      have hr : run (List.replicate (k + 1) (Action.handler 0)) s
          = run (List.replicate k (Action.handler 0)) (handlerStep 0 s) := by
        simp [run, List.replicate_succ, step]
      rw [hr]
      refine ⟨h2.1, ?_⟩
      rw [h2.2, hstep]

theorem finish_spec (hs : List Header) (tail : List (Decoded Header))
    (ht : StartsBroken tail) (s : ServerState) (h : Inv hs tail s) :
    (finish s).phase = .closed ∧ Inv hs tail (finish s) := by
  have hinv1 := inv_run hs tail ht
    (List.replicate (s.cc.conn.headers.length + 1) Action.main) s h
  have hph1 := mains_leave_reading (s.cc.conn.headers.length + 1) s (Nat.lt_succ_self _)
  have hinv2 := inv_run hs tail ht
    (List.replicate
      (run (List.replicate (s.cc.conn.headers.length + 1) Action.main) s).running.length
      (Action.handler 0)) _ hinv1
  have hdr := handlers_drain _ (run (List.replicate (s.cc.conn.headers.length + 1)
    Action.main) s) rfl
  have hinv3 := inv_mainStep hs tail ht _ hinv2
  refine ⟨?_, hinv3⟩
  have hnp := hinv2.choose_spec.choose_spec.2.2.2.2.2
  simp only [finish]
  generalize run (List.replicate
      (run (List.replicate (s.cc.conn.headers.length + 1) Action.main) s).running.length
      (Action.handler 0))
      (run (List.replicate (s.cc.conn.headers.length + 1) Action.main) s) = s2 at *
  rw [← hdr.2] at hph1
  cases hph : s2.phase with
  | reading => exact absurd hph hph1
  | waiting => simp [mainStep, hph, hdr.1]
  | closed => simp [mainStep, hph]
  | panicked => exact absurd hph hnp

/-- What the serving loop does on a header script of decodable headers `hs` followed by a read
that fails, under every schedule: the replies to `hs` are written, each once, the script is
consumed up to and including the failing read, and the codec ends closed. -/
theorem serveCodec_spec (hs : List Header) (tail : List (Decoded Header))
    (sched : List Action) (cc : Codec) (ht : StartsBroken tail)
    (hh : cc.conn.headers = hs.map Decoded.ok ++ tail) (hw : cc.conn.written = [])
    (hc : cc.conn.closed = false) :
    (serveCodec sched cc).conn.written.Perm (hs.map respOf) ∧
    (serveCodec sched cc).conn.headers = tail.tail ∧
    (serveCodec sched cc).conn.closed = true := by
  have h0 := inv_start hs tail cc hh hw hc
  have h1 := inv_run hs tail ht sched _ h0
  obtain ⟨hph, done, todo, hsplit, hperm, _, _, hcl, _⟩ := finish_spec hs tail ht _ h1
  obtain ⟨htodo, hhd, hrun, hclosed⟩ := hcl hph
  subst htodo
  simp only [List.append_nil] at hsplit
  subst hsplit
  refine ⟨?_, hhd, hclosed⟩
  simpa [serveCodec, hrun] using hperm

/-- While the loop runs, the codec is closed only once every reply has been written. -/
theorem closed_only_after_replies (hs : List Header) (tail : List (Decoded Header))
    (sched : List Action) (cc : Codec) (ht : StartsBroken tail)
    (hh : cc.conn.headers = hs.map Decoded.ok ++ tail) (hw : cc.conn.written = [])
    (hc : cc.conn.closed = false)
    (hclosed : (run sched (start cc)).cc.conn.closed = true) :
    (run sched (start cc)).cc.conn.written.Perm (hs.map respOf) := by
  have h0 := inv_start hs tail cc hh hw hc
  obtain ⟨done, todo, hsplit, hperm, hr, hwt, hcl, hp⟩ := inv_run hs tail ht sched _ h0
  cases hph : (run sched (start cc)).phase with
  | reading => have := (hr hph).2; rw [hclosed] at this; cases this
  | waiting => have := (hwt hph).2.2; rw [hclosed] at this; cases this
  | panicked => exact absurd hph hp
  | closed =>
    obtain ⟨htodo, _, hrun, _⟩ := hcl hph
    subst htodo
    simp only [List.append_nil] at hsplit
    subst hsplit
    simpa [hrun] using hperm

/-- C1, the code at the failing input: on a connection whose first request has a body that does
not decode and whose second request is well formed, every schedule ends with exactly the two
ordinary replies written, so the reply to the request with the bad body carries the header as
received, with an empty error field, and the loop goes on to answer the next request. -/
theorem body_failure_reply_has_empty_error (sched : List Action) :
    (serveCodec sched (NewGobCodec demoConn)).conn.written.Perm
      [(⟨"Foo.Sum", 7, ""⟩, Body.str "geerpc resp 7"),
       (⟨"Foo.Sum", 8, ""⟩, Body.str "geerpc resp 8")] ∧
    ∀ f ∈ (serveCodec sched (NewGobCodec demoConn)).conn.written, f.1.Error = "" := by
  have h := (serveCodec_spec [⟨"Foo.Sum", 7, ""⟩, ⟨"Foo.Sum", 8, ""⟩]
    [.fail "unexpected EOF", .ok ⟨"Foo.Sum", 9, ""⟩] sched (NewGobCodec demoConn)
    (by decide) rfl rfl rfl).1
  have h2 : List.map respOf [⟨"Foo.Sum", 7, ""⟩, ⟨"Foo.Sum", 8, ""⟩]
      = [(⟨"Foo.Sum", 7, ""⟩, Body.str "geerpc resp 7"),
         (⟨"Foo.Sum", 8, ""⟩, Body.str "geerpc resp 8")] := by decide
  rw [h2] at h
  refine ⟨h, ?_⟩
  intro f hf
  have hf2 := h.mem_iff.mp hf
  simp only [List.mem_cons, List.mem_singleton, List.not_mem_nil, or_false] at hf2
  rcases hf2 with rfl | rfl <;> rfl

/-- C3: `ServeConn` enters the serving loop on a gob codec built from the connection when the
handshake decodes with magic number `0x3bef5c` and codec type `application/gob`, the only
registered type (`application/json` is not registered); when the handshake fails to decode, or
the magic number differs, or the codec type is not registered, it only closes the connection:
nothing is read from the frames and nothing is written back. -/
theorem ServeConn_handshake (sched : List Action) (conn : Conn) :
    (∀ opt, conn.handshake = .ok opt → opt.MagicNumber = 0x3bef5c →
      opt.CodecType = "application/gob" →
      ServeConn sched conn = (serveCodec sched (NewGobCodec conn)).conn.Close) ∧
    (∀ t, (NewCodecFuncMap t).isSome = true ↔ t = "application/gob") ∧
    NewCodecFuncMap JsonType = none ∧
    (((∃ e, conn.handshake = .fail e) ∨
      (∃ opt, conn.handshake = .ok opt ∧
        (opt.MagicNumber ≠ 0x3bef5c ∨ NewCodecFuncMap opt.CodecType = none))) →
      ServeConn sched conn = conn.Close ∧
      (ServeConn sched conn).written = conn.written ∧
      (ServeConn sched conn).headers = conn.headers ∧
      (ServeConn sched conn).bodies = conn.bodies ∧
      (ServeConn sched conn).closed = true) := by
  refine ⟨?_, ?_, if_neg (by decide), ?_⟩
  · intro opt hopt hmagic hcodec
    have hm : opt.MagicNumber = MagicNumber := hmagic
    simp [ServeConn, hopt, hm, hcodec, NewCodecFuncMap, GobType]
  · intro t
    by_cases ht : t = GobType
    · simp [NewCodecFuncMap, ht, GobType]
    · have ht2 : ¬ t = "application/gob" := ht
      simp [NewCodecFuncMap, ht, ht2]
  · intro hrej
    have hclose : ServeConn sched conn = conn.Close := by
      rcases hrej with ⟨e, he⟩ | ⟨opt, hopt, hbad | hbad⟩
      · simp [ServeConn, he]
      · have hm : opt.MagicNumber ≠ MagicNumber := hbad
        simp [ServeConn, hopt, hm]
      · by_cases hm : opt.MagicNumber = MagicNumber
        · simp [ServeConn, hopt, hm, hbad]
        · simp [ServeConn, hopt, hm]
    rw [hclose]
    exact ⟨rfl, rfl, rfl, rfl, rfl⟩

/-- Witness of C3: the default handshake is served, a handshake asking for
`application/json` is turned away with nothing written. -/
theorem ServeConn_handshake_witness :
    ServeConn [] demoConn = (serveCodec [] (NewGobCodec demoConn)).conn.Close ∧
    (ServeConn [] { demoConn with handshake := .ok ⟨0x3bef5c, "application/json"⟩ }).written
      = [] :=
  ⟨(ServeConn_handshake [] demoConn).1 DefaultOption rfl rfl rfl,
   ((ServeConn_handshake [] { demoConn with handshake := .ok ⟨0x3bef5c, "application/json"⟩ }
      ).2.2.2 (Or.inr ⟨⟨0x3bef5c, "application/json"⟩, rfl, Or.inr (if_neg (by decide))⟩)).2.1⟩

/-- C4: on `N` decodable requests followed by a header read that fails (a decoding error or
the end of the stream), under every schedule of the handler goroutines, `serveCodec` writes
exactly `N` frames, the replies to the `N` requests with their sequence numbers and service
methods, one per request and none for the failed header; it reads nothing past the failed
header; it ends with the codec closed; and at no moment of the run is the codec closed before
all `N` replies are written. -/
theorem serveCodec_answers_all (hs : List Header) (tail : List (Decoded Header))
    (sched mid : List Action) (cc : Codec) (ht : StartsBroken tail)
    (hh : cc.conn.headers = hs.map Decoded.ok ++ tail)
    (hw : cc.conn.written = []) (hc : cc.conn.closed = false) :
    (serveCodec sched cc).conn.written.Perm (hs.map respOf) ∧
    (serveCodec sched cc).conn.written.length = hs.length ∧
    ((serveCodec sched cc).conn.written.map (fun f => (f.1.Seq, f.1.ServiceMethod))).Perm
      (hs.map (fun h => (h.Seq, h.ServiceMethod))) ∧
    (serveCodec sched cc).conn.headers = tail.tail ∧
    (serveCodec sched cc).conn.closed = true ∧
    ((run mid (start cc)).cc.conn.closed = true →
      (run mid (start cc)).cc.conn.written.Perm (hs.map respOf)) := by
  obtain ⟨hperm, hhd, hcl⟩ := serveCodec_spec hs _ sched cc ht hh hw hc
  refine ⟨hperm, ?_, ?_, hhd, hcl, ?_⟩
  · simpa using hperm.length_eq
  · have := hperm.map (fun f => (f.1.Seq, f.1.ServiceMethod))
    simpa [respOf, Function.comp_def] using this
  · exact closed_only_after_replies hs _ mid cc ht hh hw hc

/-- Witness of C4: two requests, then a failing header read, with the second handler
scheduled before the first. -/
theorem serveCodec_answers_all_witness :
    (serveCodec [.main, .main, .handler 1] (NewGobCodec demoConn)).conn.written.length = 2 ∧
    (serveCodec [.main, .main, .handler 1] (NewGobCodec demoConn)).conn.headers
      = [.ok ⟨"Foo.Sum", 9, ""⟩] ∧
    (serveCodec [.main, .main, .handler 1] (NewGobCodec demoConn)).conn.closed = true :=
  have h := serveCodec_answers_all [⟨"Foo.Sum", 7, ""⟩, ⟨"Foo.Sum", 8, ""⟩]
    [.fail "unexpected EOF", .ok ⟨"Foo.Sum", 9, ""⟩] [.main, .main, .handler 1] []
    (NewGobCodec demoConn) (by decide) rfl rfl rfl
  ⟨h.2.1, h.2.2.2.1, h.2.2.2.2.1⟩

/-- C5, the claim fails: the request for `Arith.Missing`, a method nobody registered, is
answered with an empty error field. -/
theorem missing_method_reply_has_empty_error :
    (serveCodec [] (NewGobCodec missingConn)).conn.written
      = [(⟨"Arith.Missing", 1, ""⟩, Body.str "geerpc resp 1")] ∧
    ¬ (∀ f ∈ (serveCodec [] (NewGobCodec missingConn)).conn.written, f.1.Error ≠ "") := by
  have h : (serveCodec [] (NewGobCodec missingConn)).conn.written
      = [(⟨"Arith.Missing", 1, ""⟩, Body.str "geerpc resp 1")] := by decide
  refine ⟨h, ?_⟩
  rw [h]
  intro hall
  exact hall _ (List.mem_singleton.mpr rfl) rfl

/-- C5 as amended: whatever its service method, a decodable request is answered by
`handleRequest` with one frame carrying the request's own header, so the error field is the
one received, and the body `geerpc resp <seq>`; under every schedule each request of the
connection gets that reply and no frame is written that is not one of them. -/
theorem handleRequest_echoes_header (hs : List Header) (tail : List (Decoded Header))
    (sched : List Action) (cc : Codec) (req : request) (ht : StartsBroken tail)
    (hh : cc.conn.headers = hs.map Decoded.ok ++ tail)
    (hw : cc.conn.written = []) (hc : cc.conn.closed = false) :
    (handleRequest cc req).conn.written
      = cc.conn.written ++ [(req.h, Body.str (replyText req.h.Seq))] ∧
    (∀ h ∈ hs, (h, Body.str (replyText h.Seq)) ∈ (serveCodec sched cc).conn.written) ∧
    (∀ f ∈ (serveCodec sched cc).conn.written,
      ∃ h ∈ hs, f.1 = h ∧ f.1.Error = h.Error ∧ f.2 = Body.str (replyText h.Seq)) := by
  have hperm := (serveCodec_spec hs tail sched cc ht hh hw hc).1
  refine ⟨by simp [handleRequest, sendResponse, Codec.Write], ?_, ?_⟩
  · intro h hmem
    exact hperm.mem_iff.mpr (List.mem_map.mpr ⟨h, hmem, rfl⟩)
  · intro f hf
    obtain ⟨h, hmem, hfe⟩ := List.mem_map.mp (hperm.mem_iff.mp hf)
    subst hfe
    exact ⟨h, hmem, rfl, rfl, rfl⟩

/-- Witness of C5 as amended, on the connection asking for `Arith.Missing`. -/
theorem handleRequest_echoes_header_witness :
    ((⟨"Arith.Missing", 1, ""⟩ : Header), Body.str (replyText 1))
      ∈ (serveCodec [] (NewGobCodec missingConn)).conn.written :=
  (handleRequest_echoes_header [⟨"Arith.Missing", 1, ""⟩] [] [] (NewGobCodec missingConn)
    ⟨⟨"Arith.Missing", 1, ""⟩, "x", none⟩ (by decide) rfl rfl rfl).2.1
    ⟨"Arith.Missing", 1, ""⟩ (List.mem_singleton.mpr rfl)

end Server

namespace Gob

theorem flush_open (conn : Conn) (data : Bytes)
    (hopen : conn.closed = false) (hok : conn.broken = false) :
    (GobCodec.Flush { conn := conn, buf := { data := data, err := none } }).2
      = { conn := { conn with wire := conn.wire ++ data },
          buf := { data := [], err := none } } := by
  cases data with
  | nil => simp [GobCodec.Flush]
  | cons b bs => simp [GobCodec.Flush, Conn.Write, hopen, hok]

/-- C2, the claim fails: a header that encodes followed by a body that does not leaves the
three bytes of the header on the connection, and `Write` is not atomic there; nor is it atomic
on a connection that refuses the flush, where it returns nil with nothing written. -/
theorem Write_leaves_header_on_wire :
    ((NewGobCodec ⟨[], false, false⟩).Write gobBodyFails ⟨"Foo.Sum", 0, ""⟩ "x").1
      = some "gob: type not registered" ∧
    ((NewGobCodec ⟨[], false, false⟩).Write gobBodyFails ⟨"Foo.Sum", 0, ""⟩ "x").2.conn.wire
      = (gobBodyFails (Value.header ⟨"Foo.Sum", 0, ""⟩)).emitted ∧
    ((NewGobCodec ⟨[], false, false⟩).Write gobBodyFails ⟨"Foo.Sum", 0, ""⟩ "x").2.conn.wire
      = [1, 2, 3] ∧
    ¬ WriteAtomic gobBodyFails (NewGobCodec ⟨[], false, false⟩) ⟨"Foo.Sum", 0, ""⟩ "x" ∧
    ¬ WriteAtomic gobFine (NewGobCodec ⟨[], false, true⟩) ⟨"Foo.Sum", 0, ""⟩ "x" := by
  refine ⟨by decide, by decide, by decide, ?_, ?_⟩
  · unfold WriteAtomic
    decide
  · unfold WriteAtomic
    decide

/-- C2 as amended: on a codec whose writer holds no earlier error and whose connection is open
and accepts writes, `Write` returns nil with header and body flushed to the connection when
both encode; when the header or the body fails to encode it returns that error and has closed
the connection, after flushing what was encoded until then, so a header whose body failed to
encode is on the connection when it is closed. -/
theorem Write_flushes_then_closes {β : Type} (gob : Value β → EncodeOutcome) (c : GobCodec)
    (h : Server.Header) (body : β) (hsticky : c.buf.err = none)
    (hopen : c.conn.closed = false) (hok : c.conn.broken = false) :
    ((gob (Value.header h)).err = none → (gob (Value.body body)).err = none →
      (c.Write gob h body).1 = none ∧
      (c.Write gob h body).2.conn.wire
        = c.conn.wire ++ (c.buf.data ++ (gob (Value.header h)).emitted
            ++ (gob (Value.body body)).emitted) ∧
      (c.Write gob h body).2.conn.closed = false ∧
      (c.Write gob h body).2.buf.data = []) ∧
    (∀ e, (gob (Value.header h)).err = some e →
      (c.Write gob h body).1 = some e ∧
      (c.Write gob h body).2.conn.closed = true ∧
      (c.Write gob h body).2.conn.wire
        = c.conn.wire ++ (c.buf.data ++ (gob (Value.header h)).emitted)) ∧
    (∀ e, (gob (Value.header h)).err = none → (gob (Value.body body)).err = some e →
      (c.Write gob h body).1 = some e ∧
      (c.Write gob h body).2.conn.closed = true ∧
      (c.Write gob h body).2.conn.wire
        = c.conn.wire ++ (c.buf.data ++ (gob (Value.header h)).emitted
            ++ (gob (Value.body body)).emitted)) := by
  obtain ⟨conn, buf⟩ := c
  obtain ⟨data, err⟩ := buf
  simp only at hsticky hopen hok
  subst hsticky
  refine ⟨?_, ?_, ?_⟩
  · intro hh hb
    simp [GobCodec.Write, GobCodec.Encode, GobCodec.bufWrite, GobCodec.writeDeferred, hh, hb,
      flush_open _ _ hopen hok, hopen]
  · intro e hh
    simp [GobCodec.Write, GobCodec.Encode, GobCodec.bufWrite, GobCodec.writeDeferred, hh,
      flush_open _ _ hopen hok, GobCodec.Close]
  · intro e hh hb
    simp [GobCodec.Write, GobCodec.Encode, GobCodec.bufWrite, GobCodec.writeDeferred, hh, hb,
      flush_open _ _ hopen hok, GobCodec.Close]

/-- Witness of C2 as amended: a frame that encodes, on a fresh codec over a sound
connection. -/
theorem Write_flushes_then_closes_witness :
    ((NewGobCodec ⟨[], false, false⟩).Write gobFine ⟨"Foo.Sum", 0, ""⟩ "x").1 = none ∧
    ((NewGobCodec ⟨[], false, false⟩).Write gobFine ⟨"Foo.Sum", 0, ""⟩ "x").2.conn.wire
      = [] ++ ([] ++ [1, 2, 3] ++ [4, 5]) ∧
    ((NewGobCodec ⟨[], false, false⟩).Write gobFine ⟨"Foo.Sum", 0, ""⟩ "x").2.conn.closed
      = false ∧
    ((NewGobCodec ⟨[], false, false⟩).Write gobFine ⟨"Foo.Sum", 0, ""⟩ "x").2.buf.data = [] :=
  (Write_flushes_then_closes gobFine (NewGobCodec ⟨[], false, false⟩) ⟨"Foo.Sum", 0, ""⟩ "x"
    rfl rfl rfl).1 rfl rfl

/-- The flush error is dropped: on a connection that refuses the write, a frame that encodes
makes `Write` return nil with nothing on the connection and the connection left open. -/
theorem Write_drops_flush_error :
    ((NewGobCodec ⟨[], false, true⟩).Write gobFine ⟨"Foo.Sum", 0, ""⟩ "x").1 = none ∧
    ((NewGobCodec ⟨[], false, true⟩).Write gobFine ⟨"Foo.Sum", 0, ""⟩ "x").2.conn.wire = [] ∧
    ((NewGobCodec ⟨[], false, true⟩).Write gobFine ⟨"Foo.Sum", 0, ""⟩ "x").2.conn.closed
      = false := by
  decide

end Gob

namespace Service

/-- The test `registerMethods` applies to one method, and what it stores: three parameters with
the receiver, the single result `error`, argument and reply passing `isExportedOrBuiltinType`.
The kind of the reply type is not looked at. -/
theorem registerOne_some_iff (upper : Char → Bool) (m : Method) (mt : methodType) :
    registerOne upper m = some mt ↔
      ∃ recv argType replyType, m.In = [recv, argType, replyType] ∧ m.Out = [errorType] ∧
        isExportedOrBuiltinType upper argType = true ∧
        isExportedOrBuiltinType upper replyType = true ∧
        mt = { method := m, ArgType := argType, ReplyType := replyType, numCalls := 0 } := by
  obtain ⟨name, ins, outs⟩ := m
  constructor
  · intro h
    unfold registerOne at h
    simp only at h
    split at h
    · cases h
    · rename_i hlen
      split at h
      · cases h
      · rename_i hout
        push_neg at hlen
        obtain ⟨hin3, hout1⟩ := hlen
        match ins, hin3 with
        | [recv, a, r], _ =>
          match outs, hout1 with
          | [o], _ =>
            simp only [List.get?_cons_zero, ne_eq, Option.some.injEq, not_not] at hout
            simp only [List.get?_cons_succ, List.get?_cons_zero] at h
            split at h
            · cases h
            · rename_i hvis
              simp only [Bool.or_eq_true, Bool.not_eq_true', not_or, Bool.not_eq_false] at hvis
              refine ⟨recv, a, r, rfl, by rw [hout], hvis.1, hvis.2, ?_⟩
              exact (Option.some.inj h).symm
  · rintro ⟨recv, a, r, hin, hout, ha, hr, hmt⟩
    simp only at hin hout
    subst hin hout hmt
    simp [registerOne, ha, hr]

theorem methodGet_methodSet (m : MethodMap) (name n : String) (mt : methodType) :
    methodGet (methodSet m name mt) n = if name = n then some mt else methodGet m n := by
  induction m with
  | nil => simp [methodSet, methodGet]
  | cons kv rest ih =>
    obtain ⟨k, v⟩ := kv
    by_cases hk : k = name
    · subst hk
      by_cases hn : k = n
      · simp [methodSet, methodGet, hn]
      · simp [methodSet, methodGet, hn]
    · by_cases hn : k = n
      · subst hn
        simp [methodSet, methodGet, hk, Ne.symm hk]
      · simp [methodSet, methodGet, hk, hn, ih]

/-- Every descriptor in the table was stored for a method of the receiver that passes the test
of `registerOne`, under that method's name. -/
theorem registerLoop_get (upper : Char → Bool) (methods : List Method) :
    ∀ (table : MethodMap) (n : String) (mt : methodType),
      methodGet (registerLoop upper methods table) n = some mt →
      methodGet table n = some mt ∨
        ∃ m ∈ methods, m.Name = n ∧ registerOne upper m = some mt := by
  induction methods with
  | nil => intro table n mt h; exact Or.inl h
  | cons m rest ih =>
    intro table n mt h
    unfold registerLoop at h
    cases hone : registerOne upper m with
    | none =>
      rw [hone] at h
      rcases ih table n mt h with h1 | ⟨m1, hm1, hn1, hr1⟩
      · exact Or.inl h1
      · exact Or.inr ⟨m1, List.mem_cons_of_mem _ hm1, hn1, hr1⟩
    | some d =>
      rw [hone] at h
      rcases ih _ n mt h with h1 | ⟨m1, hm1, hn1, hr1⟩
      · rw [methodGet_methodSet] at h1
        by_cases hn : m.Name = n
        · rw [if_pos hn] at h1
          exact Or.inr ⟨m, List.mem_cons_self _ _, hn, by rw [hone, h1]⟩
        · rw [if_neg hn] at h1
          exact Or.inl h1
      · exact Or.inr ⟨m1, List.mem_cons_of_mem _ hm1, hn1, hr1⟩

/-- A method that passes the test is in the table under its name, when the method names of the
receiver are distinct. -/
theorem registerLoop_keeps (upper : Char → Bool) (methods : List Method) :
    ∀ (table : MethodMap) (m : Method) (mt : methodType),
      (methods.map (fun x => x.Name)).Nodup → m ∈ methods → registerOne upper m = some mt →
      methodGet (registerLoop upper methods table) m.Name = some mt := by
  have hstay : ∀ (ms : List Method) (table : MethodMap) (n : String) (mt : methodType),
      n ∉ ms.map (fun x => x.Name) → methodGet table n = some mt →
      methodGet (registerLoop upper ms table) n = some mt := by
    intro ms
    induction ms with
    | nil => intro table n mt _ h; exact h
    | cons a rest ih =>
      intro table n mt hn h
      simp only [List.map_cons, List.mem_cons, not_or] at hn
      unfold registerLoop
      cases hone : registerOne upper a with
      | none => exact ih table n mt hn.2 h
      | some d =>
        apply ih _ n mt hn.2
        rw [methodGet_methodSet, if_neg (Ne.symm hn.1)]
        exact h
  induction methods with
  | nil => intro table m mt _ hm _; simp at hm
  | cons a rest ih =>
    intro table m mt hnd hm hone
    simp only [List.map_cons, List.nodup_cons] at hnd
    rcases List.mem_cons.mp hm with rfl | hm1
    · unfold registerLoop
      rw [hone]
      apply hstay rest _ _ _ hnd.1
      rw [methodGet_methodSet, if_pos rfl]
    · unfold registerLoop
      cases ha : registerOne upper a with
      | none => exact ih table m mt hnd.2 hm1 hone
      | some d => exact ih _ m mt hnd.2 hm1 hone

/-- C9, the code at the failing input: the method `Bad(arg int, reply int) error`, whose reply
parameter is not a pointer, is put in the method table next to `Sum`, with reply type `int`. -/
theorem registerMethods_keeps_non_pointer_reply :
    methodGet (registerMethods Char.isUpper fooMethods) "Bad"
      = some { method := { Name := "Bad",
                           In := [RType.defined "main" "Foo" RType.structLit, intType, intType],
                           Out := [errorType] },
               ArgType := intType, ReplyType := intType, numCalls := 0 } ∧
    intType.Kind ≠ Kind.Ptr ∧
    (methodGet (registerMethods Char.isUpper fooMethods) "Sum").isSome = true := by
  decide

/-- What `newReplyv` returns when the reply type has an element type: a pointer to a fresh
value of that type, an empty map for a map, an empty slice of length 0 for a slice, the zero
value otherwise. -/
theorem newReplyv_of_elem (m : methodType) (elemType : RType)
    (h : m.ReplyType.Elem = some elemType) :
    ∃ p, newReplyv m = some p ∧ p.elemType = elemType ∧
      (elemType.Kind = Kind.Map → p.contents = Contents.emptyMap elemType) ∧
      (elemType.Kind = Kind.Slice → p.contents = Contents.emptySlice elemType 0 0) ∧
      (elemType.Kind ≠ Kind.Map → elemType.Kind ≠ Kind.Slice →
        p.contents = Contents.zero elemType) := by
  unfold newReplyv
  rw [h]
  cases hk : elemType.Kind <;> simp [hk]

/-- C10, the code at the failing input: the descriptor `registerMethods` stores for
`Bad(arg int, reply int) error` makes `newReplyv` panic, `int` having no element type. -/
theorem newReplyv_panics_on_registered :
    ∃ mt, methodGet (registerMethods Char.isUpper fooMethods) "Bad" = some mt ∧
      mt.ReplyType = intType ∧ newReplyv mt = none := by
  refine ⟨{ method := { Name := "Bad",
                        In := [RType.defined "main" "Foo" RType.structLit, intType, intType],
                        Out := [errorType] },
            ArgType := intType, ReplyType := intType, numCalls := 0 }, ?_, rfl, rfl⟩
  decide

end Service
